import Mathlib

/-!
# UserVault: age derivation, validation, service orchestration and HTTP mapping

Shallow embedding of the Go packages `internal/models`, `internal/repository`,
`internal/service` and `internal/handler`.

* A `time.Time` is represented by the triple that `Time.Date()` returns.
* Go strings are Lean strings; byte-level scanning is done on the character list
  (every non-ASCII character is a non-digit on both sides).
* Go `int`/`int64` values are `Int`; the one narrowing conversion of the program,
  `int32(id)`, is modelled explicitly by `toInt32`.
-/

namespace UserVault

/-! ## Calendar (package `time`) -/

/-- Result of `time.Time.Date()`: year, month (January = 1) and day of the month. -/
structure Date where
  year : Int
  month : Nat
  day : Nat
deriving DecidableEq, Repr

/-- Go `time.isLeap`. Only divisibility is tested, so the sign convention of `%` is immaterial. -/
def isLeap (year : Int) : Bool :=
  year % 4 == 0 && (year % 100 != 0 || year % 400 == 0)

/-- Go `time.daysIn`: number of days of month `m` in `year`. -/
def daysIn (m : Nat) (year : Int) : Nat :=
  if m = 2 then (if isLeap year then 29 else 28)
  else if m = 4 ∨ m = 6 ∨ m = 9 ∨ m = 11 then 30
  else 31

/-- A date of the proleptic Gregorian calendar, the only values `Time.Date()` produces. -/
def validDate (d : Date) : Prop :=
  1 ≤ d.month ∧ d.month ≤ 12 ∧ 1 ≤ d.day ∧ d.day ≤ daysIn d.month d.year

instance (d : Date) : Decidable (validDate d) := by
  unfold validDate; infer_instance

/-- Chronological order of two calendar dates: `a` is strictly earlier than `b`. -/
def Date.before (a b : Date) : Prop :=
  a.year < b.year ∨ (a.year = b.year ∧ (a.month < b.month ∨ (a.month = b.month ∧ a.day < b.day)))

instance (a b : Date) : Decidable (Date.before a b) := by
  unfold Date.before; infer_instance

/-- The calendar day before `t` (`t.AddDate(0, 0, -1)`). -/
def prevDay (t : Date) : Date :=
  if 1 < t.day then { t with day := t.day - 1 }
  else if 1 < t.month then { year := t.year, month := t.month - 1, day := daysIn (t.month - 1) t.year }
  else { year := t.year - 1, month := 12, day := 31 }

/-! ## `internal/models` -/

/-- `models.CalculateAge`: age in whole years as of `now`. The years of a `time.Time` are
below 2^40 in magnitude, so the subtraction on the 64-bit `int` of Go does not wrap. -/
def CalculateAge (dob now : Date) : Int :=
  let age := now.year - dob.year
  let age := if now.month < dob.month ∨ (now.month = dob.month ∧ now.day < dob.day) then age - 1 else age
  if age < 0 then 0 else age

/-- The increment law of the age over one day as the specification words it: the age grows by
one on a day with the month and day of the date of birth and stays put on every other day. -/
def AnniversaryLaw (d t : Date) : Prop :=
  CalculateAge d t - CalculateAge d (prevDay t) = if t.month = d.month ∧ t.day = d.day then 1 else 0

instance (d t : Date) : Decidable (AnniversaryLaw d t) := by
  unfold AnniversaryLaw; infer_instance

/-! ## Text scanning (packages `time` and `strconv`) -/

/-- Digit test `'0' <= c && c <= '9'` of `time.isDigit` and `strconv.ParseUint`. -/
def isDigit (c : Char) : Bool :=
  decide ('0' ≤ c) && decide (c ≤ '9')

/-- Value `c - '0'` of a digit character. -/
def digitVal (c : Char) : Nat :=
  c.toNat - 48

/-- The layout element `2006` of `time.Parse` (`stdLongYear`): the value must start with
four digits, which `atoi` turns into the year. -/
def longYear : List Char → Option (Int × List Char)
  | c0 :: c1 :: c2 :: c3 :: rest =>
    if isDigit c0 && isDigit c1 && isDigit c2 && isDigit c3 then
      some (((digitVal c0 * 1000 + digitVal c1 * 100 + digitVal c2 * 10 + digitVal c3 : Nat) : Int), rest)
    else none
  | _ => none

/-- Go `time.skip` for a literal of one character: the value must start with it. -/
def skip (value : List Char) (c : Char) : Option (List Char) :=
  match value with
  | v0 :: rest => if v0 = c then some rest else none
  | [] => none

/-- Go `time.getnum(s, true)`: exactly two leading digits. -/
def getnum : List Char → Option (Nat × List Char)
  | c0 :: c1 :: rest =>
    if isDigit c0 && isDigit c1 then some (digitVal c0 * 10 + digitVal c1, rest) else none
  | _ => none

/-- `time.Parse("2006-01-02", value)`: `some` date when the returned error is nil. The layout
is the year (`2006`), a literal `-`, the zero-padded month (`01`, range-checked at once),
a literal `-` and the zero-padded day (`02`); text left over is an error, and the day is
checked against the length of the month after the scan. -/
def timeParse (value : String) : Option Date :=
  match longYear value.toList with
  | none => none
  | some (year, v) =>
    match skip v '-' with
    | none => none
    | some v =>
      match getnum v with
      | none => none
      | some (month, v) =>
        if month = 0 ∨ 12 < month then none
        else
          match skip v '-' with
          | none => none
          | some v =>
            match getnum v with
            | none => none
            | some (day, v) =>
              if v ≠ [] then none
              else if day < 1 ∨ daysIn month year < day then none
              else some { year := year, month := month, day := day }

/-- The closure `utod` of `time.appendInt`: the digit character `'0' + u`. -/
def utod (u : Nat) : Char :=
  Char.ofNat (48 + u)

/-- Go `time.appendInt`: optional minus sign, then the decimal digits padded with zeros up
to `width`; fields of width 2 and 4 that fit are written digit by digit. -/
def appendInt (x : Int) (width : Nat) : List Char :=
  let u := x.natAbs
  let b := if x < 0 then ['-'] else []
  if width = 2 ∧ u < 100 then b ++ [utod (u / 10), utod (u % 10)]
  else if width = 4 ∧ u < 10000 then
    b ++ [utod (u / 1000), utod (u / 100 % 10), utod (u / 10 % 10), utod (u % 10)]
  else
    let digits := Nat.toDigits 10 u
    b ++ List.replicate (width - digits.length) '0' ++ digits

/-- `t.Format("2006-01-02")`. -/
def formatDate (t : Date) : String :=
  String.mk (appendInt t.year 4 ++ ['-'] ++ appendInt t.month 2 ++ ['-'] ++ appendInt t.day 2)

/-- Digit loop of `strconv.ParseUint(s, 10, bitSize)`: every character must be a digit and
the accumulated value may never exceed `maxVal = 2^bitSize - 1`. (The additional guard of
Go against wrap-around of the 64-bit accumulator is subsumed by the `maxVal` test on
unbounded naturals.) -/
def parseUintLoop (maxVal : Nat) : List Char → Nat → Option Nat
  | [], n => some n
  | c :: cs, n =>
    if isDigit c then
      if maxVal < n * 10 + digitVal c then none
      else parseUintLoop maxVal cs (n * 10 + digitVal c)
    else none

/-- `strconv.ParseUint(s, 10, bitSize)`: `some` value when the returned error is nil. -/
def ParseUint (s : List Char) (bitSize : Nat) : Option Nat :=
  if s = [] then none else parseUintLoop (2 ^ bitSize - 1) s 0

/-- `strconv.ParseInt(s, 10, bitSize)`: `some` value when the returned error is nil (both
callers test `err != nil` before they look at the value). An optional sign is followed by
the digits, and the magnitude is checked against `2^(bitSize-1)`. -/
def ParseInt (s : String) (bitSize : Nat) : Option Int :=
  match s.toList with
  | [] => none
  | c :: cs =>
    let neg := decide (c = '-')
    let digits := if c = '+' ∨ c = '-' then cs else c :: cs
    match ParseUint digits bitSize with
    | none => none
    | some un =>
      let cutoff := 2 ^ (bitSize - 1)
      if neg = false ∧ cutoff ≤ un then none
      else if neg = true ∧ cutoff < un then none
      else some (if neg then -(un : Int) else (un : Int))

/-- Go conversion `int32(x)` of an `int64`: the low 32 bits, read as a signed number. -/
def toInt32 (x : Int) : Int :=
  if x % 2 ^ 32 < 2 ^ 31 then x % 2 ^ 32 else x % 2 ^ 32 - 2 ^ 32

/-! ### Reference notions used to state the claims -/

/-- Number written by a string of decimal digits. -/
def decimalValue (ds : List Char) : Nat :=
  ds.foldl (fun n c => n * 10 + digitVal c) 0

/-- The integer written in decimal in a text: an optional sign and at least one digit. -/
def writtenInt (s : String) : Option Int :=
  match s.toList with
  | [] => none
  | c :: cs =>
    let ds := if c = '+' ∨ c = '-' then cs else c :: cs
    if ds ≠ [] ∧ ds.all isDigit = true then
      some (if c = '-' then -(decimalValue ds : Int) else (decimalValue ds : Int))
    else none

/-- A text in the fixed format `YYYY-MM-DD` that names the existing calendar date `d`: ten
characters, digits except for the two hyphens, whose three numbers are the year, the
month and the day of the valid date `d`. -/
def WrittenDate (s : String) (d : Date) : Prop :=
  ∃ y0 y1 y2 y3 m0 m1 d0 d1 : Char,
    s.toList = [y0, y1, y2, y3, '-', m0, m1, '-', d0, d1]
    ∧ isDigit y0 = true ∧ isDigit y1 = true ∧ isDigit y2 = true ∧ isDigit y3 = true
    ∧ isDigit m0 = true ∧ isDigit m1 = true ∧ isDigit d0 = true ∧ isDigit d1 = true
    ∧ d.year = (decimalValue [y0, y1, y2, y3] : Int)
    ∧ d.month = decimalValue [m0, m1]
    ∧ d.day = decimalValue [d0, d1]
    ∧ validDate d

/-! ## Errors, JSON payloads and the store -/

/-- A Go `error` value, by the kind of failure it reports, with the text that its method
`Error()` returns. The first two kinds arise inside the service; the last two are the
kinds of failure of the Persistence Gateway. -/
inductive GoError
  | validation (text : String)
  | parse (text : String)
  | notFound (text : String)
  | store (text : String)
deriving DecidableEq, Repr

/-- The method `Error()` of an error value. -/
def GoError.Error : GoError → String
  | .validation text => text
  | .parse text => text
  | .notFound text => text
  | .store text => text

/-- A scalar JSON value. -/
inductive JVal
  | num (n : Int)
  | str (s : String)
deriving DecidableEq, Repr

/-- A JSON object: its members in the order in which they are written. -/
abbrev JObject := List (String × JVal)

/-- Payload of an HTTP response. -/
inductive Body
  | object (o : JObject)
  | array (items : List JObject)
  | empty
deriving DecidableEq, Repr

/-- Status code and payload of an HTTP response. -/
structure Response where
  status : Nat
  body : Body
deriving DecidableEq, Repr

/-- The record `sqlcdb.User` as persisted. -/
structure StoredUser where
  ID : Int
  Name : String
  Dob : Date
deriving DecidableEq, Repr

/-- Modelled from the spec: the generated query layer `uservault/db/sqlc` (type `Queries`),
which is not among the sources. Its five methods are taken as given functions with the
signatures their callers in `internal/repository` show; by section 4.3 of the specification
each answers with the stored record(s) or with a `NotFoundError` or `StoreError`. -/
structure Queries where
  CreateUser : String → Date → Except GoError StoredUser
  GetUser : Int → Except GoError StoredUser
  ListUsers : Int → Int → Except GoError (List StoredUser)
  UpdateUser : Int → String → Date → Except GoError StoredUser
  DeleteUser : Int → Option GoError

/-- One query sent to the store, with its arguments. -/
inductive Call
  | CreateUser (name : String) (dob : Date)
  | GetUser (id : Int)
  | ListUsers (limit offset : Int)
  | UpdateUser (id : Int) (name : String) (dob : Date)
  | DeleteUser (id : Int)
deriving DecidableEq, Repr

/-- A result together with the queries that were sent to the store to obtain it. -/
abbrev Traced (α : Type) := α × List Call

/-! ## `internal/models`: wire types -/

namespace models

/-- `models.User`, the API representation of a user. -/
structure User where
  ID : Int
  Name : String
  DOB : String
  Age : Int
deriving DecidableEq, Repr

/-- `models.CreateUserRequest`. -/
structure CreateUserRequest where
  Name : String
  DOB : String
deriving DecidableEq, Repr

/-- `models.UpdateUserRequest`. -/
structure UpdateUserRequest where
  Name : String
  DOB : String
deriving DecidableEq, Repr

/-- `encoding/json` encoding of a `User` under its field tags `json:"id"`, `json:"name"`,
`json:"dob"` and `json:"age,omitempty"`: members in field order, the member `age` left out
when `Age` is the zero value. -/
def User.marshal (u : User) : JObject :=
  [("id", JVal.num u.ID), ("name", JVal.str u.Name), ("dob", JVal.str u.DOB)]
    ++ (if u.Age = 0 then [] else [("age", JVal.num u.Age)])

end models

/-! ## Validation (`validator.Struct` under the tags of the request types) -/

/-- First failing tag of `validate:"required,min=1,max=255"` on the field `Name`; the
length of a string is counted in characters (`utf8.RuneCountInString`). -/
def nameTag (name : String) : Option String :=
  if name = "" then some "required"
  else if name.length < 1 then some "min"
  else if 255 < name.length then some "max"
  else none

/-- First failing tag of `validate:"required,datetime=2006-01-02"` on the field `DOB`; the
tag `datetime` holds when `time.Parse` with that layout returns no error. -/
def dobTag (dob : String) : Option String :=
  if dob = "" then some "required"
  else if (timeParse dob).isNone then some "datetime"
  else none

/-- Text of one `validator.FieldError`. -/
def fieldErrorText (structName field tag : String) : String :=
  "Key: \x27" ++ structName ++ "." ++ field ++ "\x27 Error:Field validation for \x27"
    ++ field ++ "\x27 failed on the \x27" ++ tag ++ "\x27 tag"

/-- `validator.Struct(req)` for a request with the fields `Name` and `DOB`: no error when
both fields pass, otherwise the validation error that lists the failing fields. -/
def validateStruct (structName name dob : String) : Option GoError :=
  let errs :=
    (match nameTag name with
      | some tag => [fieldErrorText structName "Name" tag]
      | none => [])
    ++ (match dobTag dob with
      | some tag => [fieldErrorText structName "DOB" tag]
      | none => [])
  if errs = [] then none else some (GoError.validation (String.intercalate "\n" errs))

/-! ## `internal/repository` -/

namespace repository

/-- `userRepository.Create`. -/
def Create (q : Queries) (name : String) (dob : Date) : Traced (Except GoError StoredUser) :=
  (q.CreateUser name dob, [Call.CreateUser name dob])

/-- `userRepository.Get`: the id is narrowed with `int32(id)`. -/
def Get (q : Queries) (id : Int) : Traced (Except GoError StoredUser) :=
  (q.GetUser (toInt32 id), [Call.GetUser (toInt32 id)])

/-- `userRepository.List`. -/
def List (q : Queries) (limit offset : Int) : Traced (Except GoError (List StoredUser)) :=
  (q.ListUsers limit offset, [Call.ListUsers limit offset])

/-- `userRepository.Update`: the id is narrowed with `int32(id)`. -/
def Update (q : Queries) (id : Int) (name : String) (dob : Date) :
    Traced (Except GoError StoredUser) :=
  (q.UpdateUser (toInt32 id) name dob, [Call.UpdateUser (toInt32 id) name dob])

/-- `userRepository.Delete`: the id is narrowed with `int32(id)`. -/
def Delete (q : Queries) (id : Int) : Traced (Option GoError) :=
  (q.DeleteUser (toInt32 id), [Call.DeleteUser (toInt32 id)])

end repository

/-! ## `internal/service`

The clock reading `time.Now()` of an operation is the parameter `now`. -/

namespace service

/-- `service.parseDOB`: `time.Parse("2006-01-02", dobStr)`; the text of the parse error is
abbreviated. -/
def parseDOB (dobStr : String) : Except GoError Date :=
  match timeParse dobStr with
  | some t => .ok t
  | none => .error (GoError.parse ("parsing time " ++ dobStr))

/-- `userService.CreateUser`. -/
def CreateUser (q : Queries) (now : Date) (req : models.CreateUserRequest) :
    Traced (Except GoError models.User) :=
  match validateStruct "CreateUserRequest" req.Name req.DOB with
  | some err => (.error err, [])
  | none =>
    match parseDOB req.DOB with
    | .error err => (.error err, [])
    | .ok dob =>
      match repository.Create q req.Name dob with
      | (.error err, calls) => (.error err, calls)
      | (.ok u, calls) =>
        (.ok { ID := u.ID, Name := u.Name, DOB := formatDate u.Dob,
               Age := CalculateAge u.Dob now }, calls)

/-- `userService.GetUser`. -/
def GetUser (q : Queries) (now : Date) (id : Int) : Traced (Except GoError models.User) :=
  match repository.Get q id with
  | (.error err, calls) => (.error err, calls)
  | (.ok u, calls) =>
    (.ok { ID := u.ID, Name := u.Name, DOB := formatDate u.Dob,
           Age := CalculateAge u.Dob now }, calls)

/-- `userService.ListUsers`: the loop appends one shaped user per stored user, all with the
clock reading taken once before the loop. -/
def ListUsers (q : Queries) (now : Date) (limit offset : Int) :
    Traced (Except GoError (List models.User)) :=
  match repository.List q limit offset with
  | (.error err, calls) => (.error err, calls)
  | (.ok users, calls) =>
    (.ok (users.foldl
      (fun result u =>
        result ++ [{ ID := u.ID, Name := u.Name, DOB := formatDate u.Dob,
                     Age := CalculateAge u.Dob now }])
      []), calls)

/-- `userService.UpdateUser`. -/
def UpdateUser (q : Queries) (now : Date) (id : Int) (req : models.UpdateUserRequest) :
    Traced (Except GoError models.User) :=
  match validateStruct "UpdateUserRequest" req.Name req.DOB with
  | some err => (.error err, [])
  | none =>
    match parseDOB req.DOB with
    | .error err => (.error err, [])
    | .ok dob =>
      match repository.Update q id req.Name dob with
      | (.error err, calls) => (.error err, calls)
      | (.ok u, calls) =>
        (.ok { ID := u.ID, Name := u.Name, DOB := formatDate u.Dob,
               Age := CalculateAge u.Dob now }, calls)

/-- `userService.DeleteUser`. -/
def DeleteUser (q : Queries) (id : Int) : Traced (Option GoError) :=
  repository.Delete q id

end service

/-! ## `internal/handler`

A handler maps the request to the response; the calls to the logger are left out. The body
of a request is given by the outcome of `c.BodyParser` (`none` when it fails), a path
parameter by its text, a query parameter by its text or `none` when the URL lacks it. -/

namespace handler

/-- JSON payload `fiber.Map{"error": msg}`. -/
def errorBody (msg : String) : Body :=
  Body.object [("error", JVal.str msg)]

/-- JSON payload `fiber.Map{"id": ..., "name": ..., "dob": ...}`; `encoding/json` writes
the members of a map in the order of their keys. -/
def userMap (user : models.User) : Body :=
  Body.object [("dob", JVal.str user.DOB), ("id", JVal.num user.ID), ("name", JVal.str user.Name)]

/-- Fiber `c.Query(key, defaultValue)`: the text of the parameter, and the default value
when that text is empty, which is the case for a parameter the URL lacks and also for
one written with an empty value (`defaultString` in fiber tests `len(value) == 0`). -/
def Query (arg : Option String) (defaultValue : String) : String :=
  let value := arg.getD ""
  if value = "" then defaultValue else value

/-- `UserHandler.CreateUser`, POST /users. -/
def CreateUser (q : Queries) (now : Date) (body : Option models.CreateUserRequest) :
    Traced Response :=
  match body with
  | none => ({ status := 400, body := errorBody "invalid request body" }, [])
  | some req =>
    match service.CreateUser q now req with
    | (.error err, calls) => ({ status := 400, body := errorBody err.Error }, calls)
    | (.ok user, calls) => ({ status := 201, body := userMap user }, calls)

/-- `UserHandler.GetUser`, GET /users/:id. -/
def GetUser (q : Queries) (now : Date) (idStr : String) : Traced Response :=
  match ParseInt idStr 64 with
  | none => ({ status := 400, body := errorBody "invalid id" }, [])
  | some id =>
    match service.GetUser q now id with
    | (.error _, calls) => ({ status := 404, body := errorBody "user not found" }, calls)
    | (.ok user, calls) => ({ status := 200, body := Body.object user.marshal }, calls)

/-- `UserHandler.UpdateUser`, PUT /users/:id. -/
def UpdateUser (q : Queries) (now : Date) (idStr : String)
    (body : Option models.UpdateUserRequest) : Traced Response :=
  match ParseInt idStr 64 with
  | none => ({ status := 400, body := errorBody "invalid id" }, [])
  | some id =>
    match body with
    | none => ({ status := 400, body := errorBody "invalid request body" }, [])
    | some req =>
      match service.UpdateUser q now id req with
      | (.error err, calls) => ({ status := 400, body := errorBody err.Error }, calls)
      | (.ok user, calls) => ({ status := 200, body := userMap user }, calls)

/-- `UserHandler.DeleteUser`, DELETE /users/:id. -/
def DeleteUser (q : Queries) (idStr : String) : Traced Response :=
  match ParseInt idStr 64 with
  | none => ({ status := 400, body := errorBody "invalid id" }, [])
  | some id =>
    match service.DeleteUser q id with
    | (some _, calls) => ({ status := 404, body := errorBody "user not found" }, calls)
    | (none, calls) => ({ status := 204, body := Body.empty }, calls)

/-- `UserHandler.ListUsers`, GET /users with the optional parameters `limit` and `offset`. -/
def ListUsers (q : Queries) (now : Date) (limitArg offsetArg : Option String) :
    Traced Response :=
  let limitStr := Query limitArg "50"
  let offsetStr := Query offsetArg "0"
  match ParseInt limitStr 32 with
  | none => ({ status := 400, body := errorBody "invalid limit" }, [])
  | some limit64 =>
    if limit64 ≤ 0 then ({ status := 400, body := errorBody "invalid limit" }, [])
    else
      match ParseInt offsetStr 32 with
      | none => ({ status := 400, body := errorBody "invalid offset" }, [])
      | some offset64 =>
        if offset64 < 0 then ({ status := 400, body := errorBody "invalid offset" }, [])
        else
          match service.ListUsers q now (toInt32 limit64) (toInt32 offset64) with
          | (.error _, calls) =>
            ({ status := 500, body := errorBody "failed to list users" }, calls)
          | (.ok users, calls) =>
            ({ status := 200, body := Body.array (users.map models.User.marshal) }, calls)

end handler

/-! ## Notions and sample stores used to state the claims -/

/-- An operation of the service is rejected: it returns an error and has sent no query to
the store. -/
def Rejected {α : Type} (r : Traced (Except GoError α)) : Prop :=
  (∃ err, r.1 = Except.error err) ∧ r.2 = []

/-- The shape the service gives to a stored user at the clock reading `now`. -/
def shaped (now : Date) (u : StoredUser) : models.User :=
  { ID := u.ID, Name := u.Name, DOB := formatDate u.Dob, Age := CalculateAge u.Dob now }

/-- A store that holds the users `users`, in this order; a created user gets the id 1. -/
def storeOf (users : List StoredUser) : Queries where
  CreateUser := fun name dob => .ok { ID := 1, Name := name, Dob := dob }
  GetUser := fun id =>
    match users.find? (fun u => u.ID == id) with
    | some u => .ok u
    | none => .error (GoError.notFound "no rows in result set")
  ListUsers := fun limit offset => .ok ((users.drop offset.toNat).take limit.toNat)
  UpdateUser := fun id name dob =>
    match users.find? (fun u => u.ID == id) with
    | some _ => .ok { ID := id, Name := name, Dob := dob }
    | none => .error (GoError.notFound "no rows in result set")
  DeleteUser := fun id =>
    match users.find? (fun u => u.ID == id) with
    | some _ => none
    | none => some (GoError.notFound "no rows in result set")

/-- A store every query of which fails with an unexpected store error of text `text`. -/
def failingStore (text : String) : Queries where
  CreateUser := fun _ _ => .error (GoError.store text)
  GetUser := fun _ => .error (GoError.store text)
  ListUsers := fun _ _ => .error (GoError.store text)
  UpdateUser := fun _ _ _ => .error (GoError.store text)
  DeleteUser := fun _ => some (GoError.store text)

/-- Three stored users. -/
def threeUsers : List StoredUser :=
  [⟨1, "Ada", ⟨1990, 1, 10⟩⟩, ⟨2, "Grace", ⟨1990, 1, 10⟩⟩, ⟨3, "Alan", ⟨2100, 1, 1⟩⟩]

/-! ## Theorems: age derivation -/

/-- C1: `CalculateAge dob now` is the year difference, lowered by one when the pair
(month, day) of `now` is lexicographically below that of `dob`, clamped below at 0;
the three dated examples of the unit test evaluate to 35, 35 and 34. -/
theorem CalculateAge_eq_clamped_difference :
    (∀ dob now : Date,
      CalculateAge dob now =
        max 0 ((now.year - dob.year) -
          (if toLex (now.month, now.day) < toLex (dob.month, dob.day) then 1 else 0)))
    ∧ CalculateAge ⟨1990, 1, 10⟩ ⟨2025, 12, 31⟩ = 35
    ∧ CalculateAge ⟨1990, 5, 10⟩ ⟨2025, 5, 10⟩ = 35
    ∧ CalculateAge ⟨1990, 12, 31⟩ ⟨2025, 1, 1⟩ = 34 := by
  refine ⟨?_, by decide, by decide, by decide⟩
  intro dob now
  simp only [CalculateAge, Prod.Lex.lt_iff]
  split_ifs <;> omega

/-- C3: the age is never negative, and it is 0 whenever the as-of date `t` is strictly
earlier than the date of birth `d` (date of birth in the future). -/
theorem CalculateAge_zero_of_future_dob (d t : Date) :
    0 ≤ CalculateAge d t ∧ (t.before d → CalculateAge d t = 0) := by
  simp only [CalculateAge, Date.before]
  constructor
  · split_ifs <;> omega
  · intro h
    split_ifs <;> omega

theorem CalculateAge_zero_of_future_dob_witness :
    Date.before ⟨2025, 1, 1⟩ ⟨2100, 1, 1⟩ ∧ CalculateAge ⟨2100, 1, 1⟩ ⟨2025, 1, 1⟩ = 0 :=
  ⟨by decide, (CalculateAge_zero_of_future_dob ⟨2100, 1, 1⟩ ⟨2025, 1, 1⟩).2 (by decide)⟩

/-- C2 as stated fails: for the date of birth 2000-02-29 the age goes from 0 on 2001-02-28
to 1 on 2001-03-01, a day that has neither the month nor the day of the date of birth. -/
theorem anniversary_law_fails_for_leap_day :
    validDate ⟨2000, 2, 29⟩ ∧ validDate ⟨2001, 3, 1⟩
    ∧ Date.before ⟨2000, 2, 29⟩ ⟨2001, 3, 1⟩
    ∧ prevDay ⟨2001, 3, 1⟩ = ⟨2001, 2, 28⟩
    ∧ CalculateAge ⟨2000, 2, 29⟩ ⟨2001, 2, 28⟩ = 0
    ∧ CalculateAge ⟨2000, 2, 29⟩ ⟨2001, 3, 1⟩ = 1
    ∧ ¬ AnniversaryLaw ⟨2000, 2, 29⟩ ⟨2001, 3, 1⟩ := by
  decide

/-! ## Lemmas: calendar and age -/

theorem daysIn_le (m : Nat) (y : Int) : daysIn m y ≤ 31 := by
  unfold daysIn
  split_ifs <;> omega

theorem daysIn_of_ne_two (m : Nat) (y y' : Int) (h : m ≠ 2) : daysIn m y = daysIn m y' := by
  simp [daysIn, h]

theorem daysIn_two (y : Int) : daysIn 2 y = if isLeap y then 29 else 28 := by
  simp [daysIn]

theorem CalculateAge_nonneg (d t : Date) : 0 ≤ CalculateAge d t := by
  simp only [CalculateAge]
  split_ifs <;> omega

/-- Increase of the age from the day before `t` to `t`. -/
theorem CalculateAge_sub_prevDay (d t : Date) (hd : validDate d) (ht : validDate t)
    (h : d.before t) :
    CalculateAge d t - CalculateAge d (prevDay t) =
      (if (t.month = d.month ∧ t.day = d.day)
          ∨ (d.month = 2 ∧ d.day = 29 ∧ t.month = 3 ∧ t.day = 1 ∧ isLeap t.year = false)
        then 1 else 0) := by
  obtain ⟨dy, dm, dd⟩ := d
  obtain ⟨ty, tm, td⟩ := t
  simp only [validDate, Date.before] at hd ht h
  have h31 := daysIn_le dm dy
  have hsame : isLeap ty ≠ isLeap dy → ty ≠ dy := fun hx e => hx (by rw [e])
  by_cases h1 : 1 < td
  · have hp : prevDay ⟨ty, tm, td⟩ = ⟨ty, tm, td - 1⟩ := by simp [prevDay, h1]
    rw [hp]
    simp only [CalculateAge]
    split_ifs <;> omega
  · by_cases h2 : 1 < tm
    · have hp : prevDay ⟨ty, tm, td⟩ = ⟨ty, tm - 1, daysIn (tm - 1) ty⟩ := by
        simp [prevDay, h1, h2]
      rw [hp]
      by_cases hm : tm - 1 = dm
      · rw [hm]
        by_cases hf : dm = 2
        · subst hf
          have e1 := daysIn_two ty
          have e2 := daysIn_two dy
          cases hL : isLeap ty <;> cases hL2 : isLeap dy <;>
            simp only [hL, hL2, if_true, if_false, Bool.false_eq_true] at e1 e2 <;>
            simp [hL, hL2] at hsame <;>
            simp only [CalculateAge, e1] <;> rw [e2] at hd <;>
            split_ifs <;>
            (try simp only [true_and, and_true, and_false, false_and, or_false, false_or,
              lt_self_iff_false] at *) <;>
            omega
        · have e := daysIn_of_ne_two dm ty dy hf
          simp only [CalculateAge, e]
          split_ifs <;> omega
      · simp only [CalculateAge]
        split_ifs <;> omega
    · have hp : prevDay ⟨ty, tm, td⟩ = ⟨ty - 1, 12, 31⟩ := by simp [prevDay, h1, h2]
      rw [hp]
      simp only [CalculateAge]
      split_ifs <;> omega

/-! ## Theorems: the anniversary law -/

/-- C2 (amended): for valid dates `d` and `t` with `d` earlier than `t`, the age is
non-negative and its increase from the day before `t` to `t` is 1 when `t` has the month
and day of `d`, or when `d` is a 29 February and `t` is the 1 March of a non-leap year,
and 0 on every other day; so the law of the specification holds for every date of birth
other than 29 February. -/
theorem CalculateAge_step (d t : Date) (hd : validDate d) (ht : validDate t)
    (h : d.before t) :
    0 ≤ CalculateAge d t
    ∧ CalculateAge d t - CalculateAge d (prevDay t) =
        (if (t.month = d.month ∧ t.day = d.day)
            ∨ (d.month = 2 ∧ d.day = 29 ∧ t.month = 3 ∧ t.day = 1 ∧ isLeap t.year = false)
          then 1 else 0)
    ∧ (¬ (d.month = 2 ∧ d.day = 29) → AnniversaryLaw d t) := by
  refine ⟨CalculateAge_nonneg d t, CalculateAge_sub_prevDay d t hd ht h, ?_⟩
  intro hne
  unfold AnniversaryLaw
  rw [CalculateAge_sub_prevDay d t hd ht h]
  by_cases ha : t.month = d.month ∧ t.day = d.day
  · simp [ha]
  · have : ¬ (d.month = 2 ∧ d.day = 29 ∧ t.month = 3 ∧ t.day = 1 ∧ isLeap t.year = false) :=
      fun hx => hne ⟨hx.1, hx.2.1⟩
    simp [ha, this]

theorem CalculateAge_step_witness :
    validDate ⟨2000, 2, 29⟩ ∧ validDate ⟨2001, 3, 1⟩
    ∧ Date.before ⟨2000, 2, 29⟩ ⟨2001, 3, 1⟩
    ∧ CalculateAge ⟨2000, 2, 29⟩ ⟨2001, 3, 1⟩
        - CalculateAge ⟨2000, 2, 29⟩ (prevDay ⟨2001, 3, 1⟩) = 1 :=
  ⟨by decide, by decide, by decide,
    (CalculateAge_step ⟨2000, 2, 29⟩ ⟨2001, 3, 1⟩ (by decide) (by decide) (by decide)).2.1⟩

/-! ## Lemmas: parsing -/

theorem longYear_eq_some {l v : List Char} {y : Int} (h : longYear l = some (y, v)) :
    ∃ c0 c1 c2 c3 : Char, l = c0 :: c1 :: c2 :: c3 :: v
      ∧ isDigit c0 = true ∧ isDigit c1 = true ∧ isDigit c2 = true ∧ isDigit c3 = true
      ∧ y = (decimalValue [c0, c1, c2, c3] : Int) := by
  rcases l with _ | ⟨c0, _ | ⟨c1, _ | ⟨c2, _ | ⟨c3, rest⟩⟩⟩⟩ <;> simp [longYear] at h
  obtain ⟨⟨⟨⟨h0, h1⟩, h2⟩, h3⟩, hy, hv⟩ := h
  refine ⟨c0, c1, c2, c3, by rw [hv], h0, h1, h2, h3, ?_⟩
  rw [← hy]
  simp [decimalValue]
  ring

theorem skip_eq_some {l v : List Char} {c : Char} (h : skip l c = some v) : l = c :: v := by
  rcases l with _ | ⟨v0, rest⟩ <;> simp [skip] at h
  rw [h.1, h.2]

theorem getnum_eq_some {l v : List Char} {n : Nat} (h : getnum l = some (n, v)) :
    ∃ c0 c1 : Char, l = c0 :: c1 :: v ∧ isDigit c0 = true ∧ isDigit c1 = true
      ∧ n = decimalValue [c0, c1] := by
  rcases l with _ | ⟨c0, _ | ⟨c1, rest⟩⟩ <;> simp [getnum] at h
  obtain ⟨⟨h0, h1⟩, hn, hv⟩ := h
  refine ⟨c0, c1, by rw [hv], h0, h1, ?_⟩
  rw [← hn]
  simp [decimalValue]

theorem timeParse_eq_some_iff (s : String) (d : Date) :
    timeParse s = some d ↔ WrittenDate s d := by
  constructor
  · intro h
    unfold timeParse at h
    split at h
    · cases h
    · rename_i year v1 hy
      split at h
      · cases h
      · rename_i v2 hs1
        split at h
        · cases h
        · rename_i month v3 hm
          split at h
          · cases h
          · rename_i hmr
            split at h
            · cases h
            · rename_i v4 hs2
              split at h
              · cases h
              · rename_i day v5 hd
                split at h
                · cases h
                · rename_i hv
                  split at h
                  · cases h
                  · rename_i hdr
                    obtain ⟨y0, y1, y2, y3, e1, hy0, hy1, hy2, hy3, ey⟩ := longYear_eq_some hy
                    obtain ⟨m0, m1, e3, hm0, hm1, em⟩ := getnum_eq_some hm
                    obtain ⟨d0, d1, e5, hd0, hd1, ed⟩ := getnum_eq_some hd
                    have e2 := skip_eq_some hs1
                    have e4 := skip_eq_some hs2
                    simp only [ne_eq, not_not] at hv
                    refine ⟨y0, y1, y2, y3, m0, m1, d0, d1, ?_, hy0, hy1, hy2, hy3, hm0, hm1,
                      hd0, hd1, ?_⟩
                    · rw [e1, e2, e3, e4, e5, hv]
                    · cases h
                      refine ⟨ey, em, ed, ?_⟩
                      simp only [validDate]
                      omega
  · rintro ⟨y0, y1, y2, y3, m0, m1, d0, d1, hl, hy0, hy1, hy2, hy3, hm0, hm1, hd0, hd1,
      ey, em, ed, hvalid⟩
    obtain ⟨dy, dm, dd⟩ := d
    simp only [validDate] at hvalid
    simp only at ey em ed
    have ey2 : ((digitVal y0 * 1000 + digitVal y1 * 100 + digitVal y2 * 10 + digitVal y3 : Nat)
        : Int) = dy := by
      rw [ey]; simp [decimalValue]; ring
    have em2 : digitVal m0 * 10 + digitVal m1 = dm := by rw [em]; simp [decimalValue]
    have ed2 : digitVal d0 * 10 + digitVal d1 = dd := by rw [ed]; simp [decimalValue]
    have c1 : ¬ (dm = 0 ∨ 12 < dm) := by omega
    have c2 : ¬ (dd < 1 ∨ daysIn dm dy < dd) := by omega
    simp only [timeParse, hl, longYear, skip, getnum, hy0, hy1, hy2, hy3, hm0, hm1, hd0, hd1,
      Bool.and_self, if_true, ey2, em2, ed2, c1, c2, if_false, ne_eq, not_true_eq_false]

theorem utod_digit : ∀ k : Nat, k < 10 → isDigit (utod k) = true ∧ digitVal (utod k) = k := by
  decide

/-- A valid date with a year of at most four digits is formatted as the text that names it. -/
theorem formatDate_written (d : Date) (hv : validDate d) (h0 : 0 ≤ d.year)
    (h9 : d.year ≤ 9999) : WrittenDate (formatDate d) d := by
  obtain ⟨y, m, dd⟩ := d
  simp only [validDate] at hv
  simp only at h0 h9
  have h31 := daysIn_le m y
  obtain ⟨u, rfl⟩ : ∃ u : Nat, y = (u : Int) := ⟨y.toNat, by omega⟩
  have hu : u < 10000 := by omega
  have ey : appendInt (u : Int) 4
      = [utod (u / 1000), utod (u / 100 % 10), utod (u / 10 % 10), utod (u % 10)] := by
    simp [appendInt, hu]
  have em : appendInt (m : Int) 2 = [utod (m / 10), utod (m % 10)] := by
    have : m < 100 := by omega
    simp [appendInt, this]
  have ed : appendInt (dd : Int) 2 = [utod (dd / 10), utod (dd % 10)] := by
    have : dd < 100 := by omega
    simp [appendInt, this]
  obtain ⟨a1, a2⟩ := utod_digit (u / 1000) (by omega)
  obtain ⟨b1, b2⟩ := utod_digit (u / 100 % 10) (by omega)
  obtain ⟨c1, c2⟩ := utod_digit (u / 10 % 10) (by omega)
  obtain ⟨e1, e2⟩ := utod_digit (u % 10) (by omega)
  obtain ⟨f1, f2⟩ := utod_digit (m / 10) (by omega)
  obtain ⟨g1, g2⟩ := utod_digit (m % 10) (by omega)
  obtain ⟨i1, i2⟩ := utod_digit (dd / 10) (by omega)
  obtain ⟨j1, j2⟩ := utod_digit (dd % 10) (by omega)
  refine ⟨utod (u / 1000), utod (u / 100 % 10), utod (u / 10 % 10), utod (u % 10),
    utod (m / 10), utod (m % 10), utod (dd / 10), utod (dd % 10), ?_, a1, b1, c1, e1, f1, g1,
    i1, j1, ?_, ?_, ?_, ?_⟩
  · simp [formatDate, ey, em, ed]
  · simp only [decimalValue, List.foldl_cons, List.foldl_nil, a2, b2, c2, e2]
    norm_cast
    omega
  · simp only [decimalValue, List.foldl_cons, List.foldl_nil, f2, g2]
    omega
  · simp only [decimalValue, List.foldl_cons, List.foldl_nil, i2, j2]
    omega
  · simp only [validDate]
    exact hv

theorem le_foldl_digits (cs : List Char) (n : Nat) :
    n ≤ cs.foldl (fun n c => n * 10 + digitVal c) n := by
  induction cs generalizing n with
  | nil => simp
  | cons c cs ih =>
    simp only [List.foldl_cons]
    exact le_trans (by omega) (ih (n * 10 + digitVal c))

theorem parseUintLoop_eq_some_iff (M : Nat) (cs : List Char) (n v : Nat) (hn : n ≤ M) :
    parseUintLoop M cs n = some v ↔
      cs.all isDigit = true ∧ v = cs.foldl (fun n c => n * 10 + digitVal c) n ∧ v ≤ M := by
  induction cs generalizing n with
  | nil =>
    simp only [parseUintLoop, List.all_nil, List.foldl_nil, Option.some.injEq, true_and]
    constructor
    · intro h; subst h; exact ⟨rfl, hn⟩
    · intro h; exact h.1.symm
  | cons c cs ih =>
    simp only [parseUintLoop, List.all_cons, List.foldl_cons, Bool.and_eq_true]
    by_cases hc : isDigit c = true
    · simp only [hc, if_true, true_and]
      by_cases hM : M < n * 10 + digitVal c
      · simp only [hM, if_true]
        constructor
        · intro h; cases h
        · rintro ⟨_, hv, hle⟩
          have := le_foldl_digits cs (n * 10 + digitVal c)
          omega
      · simp only [hM, if_false]
        exact ih (n * 10 + digitVal c) (by omega)
    · simp [hc]

theorem ParseUint_eq_some_iff (ds : List Char) (b v : Nat) :
    ParseUint ds b = some v ↔
      ds ≠ [] ∧ ds.all isDigit = true ∧ v = decimalValue ds ∧ v ≤ 2 ^ b - 1 := by
  unfold ParseUint decimalValue
  by_cases hds : ds = []
  · simp [hds]
  · simp only [hds, if_false, ne_eq, not_false_eq_true, true_and]
    exact parseUintLoop_eq_some_iff (2 ^ b - 1) ds 0 v (Nat.zero_le _)

/-- `ParseInt` yields exactly the integers written in the text that fit the bit size. -/
theorem ParseInt_eq_some_iff (s : String) (b : Nat) (hb : 1 ≤ b) (v : Int) :
    ParseInt s b = some v ↔
      writtenInt s = some v ∧ -(2 ^ (b - 1) : Int) ≤ v ∧ v < (2 ^ (b - 1) : Int) := by
  have hpow : 2 ^ b = 2 * 2 ^ (b - 1) := by
    obtain ⟨k, rfl⟩ : ∃ k, b = k + 1 := ⟨b - 1, by omega⟩
    simp [pow_succ, mul_comm]
  have hpos : 0 < 2 ^ (b - 1) := pow_pos (by norm_num) _
  have hc : (2 : Int) ^ (b - 1) = ((2 ^ (b - 1) : Nat) : Int) := by norm_cast
  rw [hc]
  unfold ParseInt writtenInt
  generalize 2 ^ (b - 1) = P at hpow hpos
  rcases s.toList with _ | ⟨c, cs⟩
  · simp
  · simp only
    generalize (if c = '+' ∨ c = '-' then cs else c :: cs) = ds
    cases hu : ParseUint ds b with
    | none =>
      constructor
      · intro h; cases h
      · rintro ⟨hw, hlo, hhi⟩
        exfalso
        have key : ds ≠ [] ∧ ds.all isDigit = true ∧ decimalValue ds ≤ 2 ^ b - 1 := by
          split_ifs at hw with hok hsign <;> simp only [Option.some.injEq] at hw <;>
            exact ⟨hok.1, hok.2, by omega⟩
        have hsome := (ParseUint_eq_some_iff ds b (decimalValue ds)).2
          ⟨key.1, key.2.1, rfl, key.2.2⟩
        rw [hu] at hsome
        cases hsome
    | some un =>
      obtain ⟨hne, hall, hval, hle⟩ := (ParseUint_eq_some_iff ds b un).1 hu
      simp only [hne, hall, ne_eq, not_false_eq_true, and_self, if_true, Option.some.injEq]
      rw [← hval]
      by_cases hneg : c = '-'
      · simp only [hneg, decide_True, if_true, Bool.true_eq_false, false_and, if_false, true_and]
        split_ifs with h1
        · constructor
          · intro h; cases h
          · rintro ⟨hv, hlo, hhi⟩
            omega
        · simp only [Option.some.injEq]
          constructor
          · intro hv
            refine ⟨hv, ?_, ?_⟩ <;> omega
          · rintro ⟨hv, -, -⟩
            exact hv
      · simp only [hneg, decide_False, if_false, Bool.false_eq_true, false_and, true_and]
        split_ifs with h1
        · constructor
          · intro h; cases h
          · rintro ⟨hv, hlo, hhi⟩
            omega
        · simp only [Option.some.injEq]
          constructor
          · intro hv
            refine ⟨hv, ?_, ?_⟩ <;> omega
          · rintro ⟨hv, -, -⟩
            exact hv

/-! ## Lemmas: validation and service -/

theorem String_eq_empty_iff (s : String) : s = "" ↔ s.length = 0 := by
  constructor
  · intro h; rw [h]; rfl
  · intro h
    have : s.data = [] := List.length_eq_zero.1 h
    exact String.ext this

theorem validateStruct_eq_none_iff (sn name dob : String) :
    validateStruct sn name dob = none ↔
      (1 ≤ name.length ∧ name.length ≤ 255) ∧ ∃ d, timeParse dob = some d := by
  have hempty : timeParse "" = none := by decide
  unfold validateStruct nameTag dobTag
  by_cases h0 : name = ""
  · have := (String_eq_empty_iff name).1 h0
    simp [h0]
  · have hlen : name.length ≠ 0 := fun h => h0 ((String_eq_empty_iff name).2 h)
    by_cases hd0 : dob = ""
    · simp [h0, hd0, hempty]
    · cases hp : timeParse dob with
      | none => simp [h0, hd0]
      | some d =>
        by_cases h255 : 255 < name.length
        · simp [h0, hd0, h255, hlen]
        · simp [h0, hd0, h255, hlen]
          omega

theorem service_CreateUser_invalid (q : Queries) (now : Date) (name dob : String)
    (h : ¬ ((1 ≤ name.length ∧ name.length ≤ 255) ∧ ∃ d, timeParse dob = some d)) :
    Rejected (service.CreateUser q now ⟨name, dob⟩) := by
  rw [← validateStruct_eq_none_iff "CreateUserRequest"] at h
  obtain ⟨err, herr⟩ := Option.ne_none_iff_exists'.1 h
  simp [Rejected, service.CreateUser, herr]

theorem service_CreateUser_valid (q : Queries) (now : Date) (name dob : String) (d : Date)
    (hn : 1 ≤ name.length ∧ name.length ≤ 255) (hd : timeParse dob = some d) :
    (service.CreateUser q now ⟨name, dob⟩).2 = [Call.CreateUser name d] := by
  have hv := (validateStruct_eq_none_iff "CreateUserRequest" name dob).2 ⟨hn, d, hd⟩
  simp only [service.CreateUser, hv, service.parseDOB, hd, repository.Create]
  cases q.CreateUser name d <;> rfl

theorem service_UpdateUser_invalid (q : Queries) (now : Date) (id : Int) (name dob : String)
    (h : ¬ ((1 ≤ name.length ∧ name.length ≤ 255) ∧ ∃ d, timeParse dob = some d)) :
    Rejected (service.UpdateUser q now id ⟨name, dob⟩) := by
  rw [← validateStruct_eq_none_iff "UpdateUserRequest"] at h
  obtain ⟨err, herr⟩ := Option.ne_none_iff_exists'.1 h
  simp [Rejected, service.UpdateUser, herr]

theorem service_UpdateUser_valid (q : Queries) (now : Date) (id : Int) (name dob : String)
    (d : Date) (hn : 1 ≤ name.length ∧ name.length ≤ 255) (hd : timeParse dob = some d) :
    (service.UpdateUser q now id ⟨name, dob⟩).2 = [Call.UpdateUser (toInt32 id) name d] := by
  have hv := (validateStruct_eq_none_iff "UpdateUserRequest" name dob).2 ⟨hn, d, hd⟩
  simp only [service.UpdateUser, hv, service.parseDOB, hd, repository.Update]
  cases q.UpdateUser (toInt32 id) name d <;> rfl

theorem written_date_iff (dob : String) :
    (∃ d, timeParse dob = some d) ↔ ∃ d, WrittenDate dob d :=
  exists_congr (fun d => timeParse_eq_some_iff dob d)

theorem foldl_append_singleton {α β : Type} (f : α → β) (xs : List α) (acc : List β) :
    xs.foldl (fun result u => result ++ [f u]) acc = acc ++ xs.map f := by
  induction xs generalizing acc with
  | nil => simp
  | cons x xs ih => simp [ih]

theorem service_ListUsers_ok (q : Queries) (now : Date) (limit offset : Int)
    (users : List StoredUser) (h : q.ListUsers limit offset = .ok users) :
    service.ListUsers q now limit offset
      = (.ok (users.map (shaped now)), [Call.ListUsers limit offset]) := by
  simp only [service.ListUsers, repository.List, h]
  have := foldl_append_singleton (shaped now) users []
  rw [List.nil_append] at this
  show (Except.ok (users.foldl (fun result u => result ++ [shaped now u]) []), _) = _
  rw [this]

/-! ## Theorems: validation gate and list shaping -/

/-- C4: `CreateUser` and `UpdateUser` of the service return an error without any query to
the store exactly when the name does not have 1 to 255 characters or the dob text is not
an existing calendar date written as YYYY-MM-DD; otherwise exactly one create (update)
query is sent, with the name and the date the text names. Names of length 0 and 256 and
the texts "2025-13-01", "not-a-date", "2025/01/01" are rejected; names of length 1 and 255
with "2025-01-01" are accepted. -/
theorem validation_gates_the_gateway (q : Queries) (now : Date) (id : Int)
    (name dob : String) :
    (Rejected (service.CreateUser q now ⟨name, dob⟩)
        ↔ ¬ (1 ≤ name.length ∧ name.length ≤ 255) ∨ ¬ ∃ d, WrittenDate dob d)
    ∧ (Rejected (service.UpdateUser q now id ⟨name, dob⟩)
        ↔ ¬ (1 ≤ name.length ∧ name.length ≤ 255) ∨ ¬ ∃ d, WrittenDate dob d)
    ∧ (∀ d, 1 ≤ name.length → name.length ≤ 255 → WrittenDate dob d →
        (service.CreateUser q now ⟨name, dob⟩).2 = [Call.CreateUser name d]
        ∧ (service.UpdateUser q now id ⟨name, dob⟩).2 = [Call.UpdateUser (toInt32 id) name d])
    ∧ (name.length = 0 ∨ name.length = 256 →
        Rejected (service.CreateUser q now ⟨name, dob⟩)
        ∧ Rejected (service.UpdateUser q now id ⟨name, dob⟩))
    ∧ (dob = "2025-13-01" ∨ dob = "not-a-date" ∨ dob = "2025/01/01" →
        Rejected (service.CreateUser q now ⟨name, dob⟩)
        ∧ Rejected (service.UpdateUser q now id ⟨name, dob⟩))
    ∧ (name.length = 1 ∨ name.length = 255 → dob = "2025-01-01" →
        (service.CreateUser q now ⟨name, dob⟩).2 = [Call.CreateUser name ⟨2025, 1, 1⟩]
        ∧ (service.UpdateUser q now id ⟨name, dob⟩).2
            = [Call.UpdateUser (toInt32 id) name ⟨2025, 1, 1⟩]) := by
  have hvalid : ∀ d, 1 ≤ name.length → name.length ≤ 255 → timeParse dob = some d →
      (service.CreateUser q now ⟨name, dob⟩).2 = [Call.CreateUser name d]
      ∧ (service.UpdateUser q now id ⟨name, dob⟩).2 = [Call.UpdateUser (toInt32 id) name d] :=
    fun d h1 h2 hd =>
      ⟨service_CreateUser_valid q now name dob d ⟨h1, h2⟩ hd,
        service_UpdateUser_valid q now id name dob d ⟨h1, h2⟩ hd⟩
  have hinvalid : ¬ ((1 ≤ name.length ∧ name.length ≤ 255) ∧ ∃ d, timeParse dob = some d) →
      Rejected (service.CreateUser q now ⟨name, dob⟩)
      ∧ Rejected (service.UpdateUser q now id ⟨name, dob⟩) :=
    fun h => ⟨service_CreateUser_invalid q now name dob h,
      service_UpdateUser_invalid q now id name dob h⟩
  have hiff : ∀ r : Traced (Except GoError models.User),
      (¬ ((1 ≤ name.length ∧ name.length ≤ 255) ∧ ∃ d, timeParse dob = some d) → Rejected r) →
      (∀ d, 1 ≤ name.length → name.length ≤ 255 → timeParse dob = some d → r.2 ≠ []) →
      (Rejected r ↔ ¬ (1 ≤ name.length ∧ name.length ≤ 255) ∨ ¬ ∃ d, WrittenDate dob d) := by
    intro r hrej hacc
    rw [← written_date_iff, ← not_and_or]
    constructor
    · rintro ⟨-, hnil⟩ ⟨⟨h1, h2⟩, d, hd⟩
      exact hacc d h1 h2 hd hnil
    · exact hrej
  refine ⟨hiff _ (fun h => (hinvalid h).1) ?_, hiff _ (fun h => (hinvalid h).2) ?_, ?_, ?_, ?_, ?_⟩
  · intro d h1 h2 hd
    rw [(hvalid d h1 h2 hd).1]
    simp
  · intro d h1 h2 hd
    rw [(hvalid d h1 h2 hd).2]
    simp
  · intro d h1 h2 hw
    exact hvalid d h1 h2 ((timeParse_eq_some_iff dob d).2 hw)
  · intro hlen
    apply hinvalid
    rintro ⟨⟨h1, h2⟩, -⟩
    omega
  · intro hdob
    apply hinvalid
    rintro ⟨-, d, hd⟩
    have e1 : timeParse "2025-13-01" = none := by decide
    have e2 : timeParse "not-a-date" = none := by decide
    have e3 : timeParse "2025/01/01" = none := by decide
    rcases hdob with h | h | h <;> subst h
    · rw [e1] at hd; cases hd
    · rw [e2] at hd; cases hd
    · rw [e3] at hd; cases hd
  · intro hlen hdob
    subst hdob
    exact hvalid ⟨2025, 1, 1⟩ (by omega) (by omega) (by decide)

theorem validation_gates_the_gateway_witness :
    (service.CreateUser (storeOf []) ⟨2025, 12, 31⟩ ⟨"Ada", "1990-01-10"⟩).2
        = [Call.CreateUser "Ada" ⟨1990, 1, 10⟩]
    ∧ Rejected (service.CreateUser (storeOf []) ⟨2025, 12, 31⟩ ⟨"", "1990-01-10"⟩)
    ∧ Rejected (service.UpdateUser (storeOf []) ⟨2025, 12, 31⟩ 1 ⟨"Ada", "2025-13-01"⟩) :=
  ⟨((validation_gates_the_gateway (storeOf []) ⟨2025, 12, 31⟩ 1 "Ada" "1990-01-10").2.2.1
      ⟨1990, 1, 10⟩ (by decide) (by decide)
      ((timeParse_eq_some_iff "1990-01-10" ⟨1990, 1, 10⟩).1 (by decide))).1,
    ((validation_gates_the_gateway (storeOf []) ⟨2025, 12, 31⟩ 1 "" "1990-01-10").2.2.2.1
      (Or.inl (by decide))).1,
    ((validation_gates_the_gateway (storeOf []) ⟨2025, 12, 31⟩ 1 "Ada" "2025-13-01").2.2.2.2.1
      (Or.inl rfl)).2⟩

/-- C5 as stated fails: a stored date of birth with a year outside 0 .. 9999 is a valid
calendar date, and the item that `ListUsers` returns for it carries the text that
`Format("2006-01-02")` writes, "10000-01-01" or "-0001-03-04", eleven characters that are
no text of the form YYYY-MM-DD. -/
theorem ListUsers_year_beyond_four_digits :
    validDate ⟨10000, 1, 1⟩ ∧ validDate ⟨-1, 3, 4⟩
    ∧ service.ListUsers (storeOf [⟨7, "Eve", ⟨10000, 1, 1⟩⟩, ⟨8, "Lucy", ⟨-1, 3, 4⟩⟩])
          ⟨2025, 12, 31⟩ 50 0
        = (.ok [⟨7, "Eve", "10000-01-01", 0⟩, ⟨8, "Lucy", "-0001-03-04", 2026⟩],
           [Call.ListUsers 50 0])
    ∧ (¬ ∃ d, WrittenDate "10000-01-01" d)
    ∧ (¬ ∃ d, WrittenDate "-0001-03-04" d) := by
  have e1 : timeParse "10000-01-01" = none := by decide
  have e2 : timeParse "-0001-03-04" = none := by decide
  refine ⟨by decide, by decide, rfl, ?_, ?_⟩
  · rintro ⟨d, hd⟩
    have h := (timeParse_eq_some_iff "10000-01-01" d).2 hd
    rw [e1] at h
    cases h
  · rintro ⟨d, hd⟩
    have h := (timeParse_eq_some_iff "-0001-03-04" d).2 hd
    rw [e2] at h
    cases h

/-- C5 (amended): when the store answers the list query with `users`, `ListUsers` of the
service returns as many items, in the same order; item `i` carries the id, the name, the
text that `Format("2006-01-02")` writes for the date of birth of stored user `i` and the
age computed at the one clock reading `now` of the call, so that two stored users with the
same date of birth get the same age; for a valid date of birth with a year in 0 .. 9999
that text is the text YYYY-MM-DD that names it. -/
theorem ListUsers_shapes_every_user (q : Queries) (now : Date) (limit offset : Int)
    (users : List StoredUser) (h : q.ListUsers limit offset = .ok users) :
    ∃ result : List models.User,
      service.ListUsers q now limit offset = (.ok result, [Call.ListUsers limit offset])
      ∧ result.length = users.length
      ∧ (∀ (i : Nat) (u : StoredUser), users[i]? = some u →
          result[i]? = some ({ ID := u.ID, Name := u.Name, DOB := formatDate u.Dob,
                               Age := CalculateAge u.Dob now } : models.User))
      ∧ (∀ (i j : Nat) (ui uj : StoredUser) (ri rj : models.User),
          users[i]? = some ui → users[j]? = some uj →
          result[i]? = some ri → result[j]? = some rj → ui.Dob = uj.Dob → ri.Age = rj.Age)
      ∧ (∀ (i : Nat) (u : StoredUser) (r : models.User), users[i]? = some u →
          result[i]? = some r → validDate u.Dob → 0 ≤ u.Dob.year → u.Dob.year ≤ 9999 →
          WrittenDate r.DOB u.Dob) := by
  refine ⟨users.map (shaped now), service_ListUsers_ok q now limit offset users h,
    by simp, ?_, ?_, ?_⟩
  · intro i u hu
    simp [List.getElem?_map, hu, shaped]
  · intro i j ui uj ri rj hi hj hri hrj hdob
    simp only [List.getElem?_map, hi, hj, Option.map_some', Option.some.injEq] at hri hrj
    rw [← hri, ← hrj]
    simp [shaped, hdob]
  · intro i u r hu hr hv h0 h9
    simp only [List.getElem?_map, hu, Option.map_some', Option.some.injEq] at hr
    rw [← hr]
    exact formatDate_written u.Dob hv h0 h9

theorem ListUsers_shapes_every_user_witness :
    ∃ result : List models.User,
      service.ListUsers (storeOf threeUsers) ⟨2025, 12, 31⟩ 2 0
        = (.ok result, [Call.ListUsers 2 0])
      ∧ result.length = 2
      ∧ result[0]? = some ⟨1, "Ada", "1990-01-10", 35⟩
      ∧ result[1]? = some ⟨2, "Grace", "1990-01-10", 35⟩ := by
  obtain ⟨result, h1, h2, h3, -, -⟩ :=
    ListUsers_shapes_every_user (storeOf threeUsers) ⟨2025, 12, 31⟩ 2 0
      [⟨1, "Ada", ⟨1990, 1, 10⟩⟩, ⟨2, "Grace", ⟨1990, 1, 10⟩⟩] rfl
  exact ⟨result, h1, h2, h3 0 _ rfl, h3 1 _ rfl⟩

/-! ## Lemmas: narrowing and handler traces -/

theorem toInt32_eq_self_iff (x : Int) :
    toInt32 x = x ↔ -(2 ^ 31 : Int) ≤ x ∧ x < 2 ^ 31 := by
  unfold toInt32
  split_ifs <;> omega

theorem service_ListUsers_calls (q : Queries) (now : Date) (limit offset : Int) :
    (service.ListUsers q now limit offset).2 = [Call.ListUsers limit offset] := by
  simp only [service.ListUsers, repository.List]
  cases q.ListUsers limit offset <;> rfl

theorem handler_ListUsers_of_parsed (q : Queries) (now : Date) (limitArg offsetArg : Option String)
    (l o : Int) (hl : ParseInt (handler.Query limitArg "50") 32 = some l)
    (ho : ParseInt (handler.Query offsetArg "0") 32 = some o) (hlpos : 0 < l) (honn : 0 ≤ o) :
    (handler.ListUsers q now limitArg offsetArg).2 = [Call.ListUsers (toInt32 l) (toInt32 o)] := by
  have hs := service_ListUsers_calls q now (toInt32 l) (toInt32 o)
  have h1 : ¬ l ≤ 0 := by omega
  have h2 : ¬ o < 0 := by omega
  simp only [handler.ListUsers, hl, ho, h1, h2, if_false]
  rcases hr : service.ListUsers q now (toInt32 l) (toInt32 o) with ⟨_ | _, calls⟩ <;>
    rw [hr] at hs <;> exact hs

/-! ## Theorems: HTTP mapping -/

/-- C6 fails on the code: for a stored user whose computed age is 0, GET /users/:id
answers 200 with a body that has the members id, name and dob only; the member age is
left out by `omitempty`, while a user of age 35 gets all four members. -/
theorem GetUser_omits_age_zero :
    CalculateAge ⟨2025, 6, 1⟩ ⟨2025, 12, 31⟩ = 0
    ∧ handler.GetUser (storeOf [⟨1, "Ada", ⟨2025, 6, 1⟩⟩]) ⟨2025, 12, 31⟩ "1"
        = ({ status := 200,
             body := Body.object [("id", JVal.num 1), ("name", JVal.str "Ada"),
                                  ("dob", JVal.str "2025-06-01")] },
           [Call.GetUser 1])
    ∧ handler.GetUser (storeOf [⟨1, "Ada", ⟨1990, 1, 10⟩⟩]) ⟨2025, 12, 31⟩ "1"
        = ({ status := 200,
             body := Body.object [("id", JVal.num 1), ("name", JVal.str "Ada"),
                                  ("dob", JVal.str "1990-01-10"), ("age", JVal.num 35)] },
           [Call.GetUser 1]) := by
  decide

/-- C7 fails on the code: PUT /users/999 with a valid body, answered by the store with a
not-found error, gets status 400 with the text of that error, whereas GET and DELETE of
the same id get status 404. -/
theorem UpdateUser_not_found_is_400 :
    (storeOf []).UpdateUser 999 "Ada" ⟨1990, 1, 10⟩
        = .error (GoError.notFound "no rows in result set")
    ∧ handler.UpdateUser (storeOf []) ⟨2025, 12, 31⟩ "999" (some ⟨"Ada", "1990-01-10"⟩)
        = ({ status := 400, body := handler.errorBody "no rows in result set" },
           [Call.UpdateUser 999 "Ada" ⟨1990, 1, 10⟩])
    ∧ (handler.GetUser (storeOf []) ⟨2025, 12, 31⟩ "999").1.status = 404
    ∧ (handler.DeleteUser (storeOf []) "999").1.status = 404 := by
  refine ⟨rfl, ?_, ?_, ?_⟩ <;> decide

/-- C8 fails on the code: when the store fails with an unexpected error, POST /users and
PUT /users/:id with a valid body answer with the text of the store error in the payload,
so two store errors of different text give different bodies; the other three endpoints
answer with a payload that does not depend on that text. -/
theorem store_error_text_in_payload :
    (∀ text : String,
      (handler.CreateUser (failingStore text) ⟨2025, 12, 31⟩ (some ⟨"Ada", "1990-01-10"⟩)).1
        = { status := 400, body := Body.object [("error", JVal.str text)] })
    ∧ (∀ text : String,
      (handler.UpdateUser (failingStore text) ⟨2025, 12, 31⟩ "1" (some ⟨"Ada", "1990-01-10"⟩)).1
        = { status := 400, body := Body.object [("error", JVal.str text)] })
    ∧ (handler.CreateUser (failingStore "connection refused") ⟨2025, 12, 31⟩
          (some ⟨"Ada", "1990-01-10"⟩)).1.body
        ≠ (handler.CreateUser (failingStore "too many clients already") ⟨2025, 12, 31⟩
          (some ⟨"Ada", "1990-01-10"⟩)).1.body
    ∧ (handler.UpdateUser (failingStore "connection refused") ⟨2025, 12, 31⟩ "1"
          (some ⟨"Ada", "1990-01-10"⟩)).1.body
        ≠ (handler.UpdateUser (failingStore "too many clients already") ⟨2025, 12, 31⟩ "1"
          (some ⟨"Ada", "1990-01-10"⟩)).1.body
    ∧ (∀ (text text' : String) (now : Date) (idStr : String) (limitArg offsetArg : Option String),
        handler.GetUser (failingStore text) now idStr
          = handler.GetUser (failingStore text') now idStr
        ∧ handler.DeleteUser (failingStore text) idStr
          = handler.DeleteUser (failingStore text') idStr
        ∧ handler.ListUsers (failingStore text) now limitArg offsetArg
          = handler.ListUsers (failingStore text') now limitArg offsetArg) := by
  have hv : validateStruct "CreateUserRequest" "Ada" "1990-01-10" = none := by decide
  have hv2 : validateStruct "UpdateUserRequest" "Ada" "1990-01-10" = none := by decide
  have hp : timeParse "1990-01-10" = some ⟨1990, 1, 10⟩ := by decide
  have hid : ParseInt "1" 64 = some 1 := by decide
  have hc : ∀ text : String,
      (handler.CreateUser (failingStore text) ⟨2025, 12, 31⟩ (some ⟨"Ada", "1990-01-10"⟩)).1
        = { status := 400, body := Body.object [("error", JVal.str text)] } := by
    intro text
    simp [handler.CreateUser, service.CreateUser, hv, service.parseDOB, hp, repository.Create,
      failingStore, handler.errorBody, GoError.Error]
  have hu : ∀ text : String,
      (handler.UpdateUser (failingStore text) ⟨2025, 12, 31⟩ "1" (some ⟨"Ada", "1990-01-10"⟩)).1
        = { status := 400, body := Body.object [("error", JVal.str text)] } := by
    intro text
    simp [handler.UpdateUser, hid, service.UpdateUser, hv2, service.parseDOB, hp,
      repository.Update, failingStore, handler.errorBody, GoError.Error]
  refine ⟨hc, hu, ?_, ?_, ?_⟩
  · rw [hc, hc]; decide
  · rw [hu, hu]; decide
  · intro text text' now idStr limitArg offsetArg
    refine ⟨?_, ?_, ?_⟩
    · simp only [handler.GetUser, service.GetUser, repository.Get, failingStore]
    · simp only [handler.DeleteUser, service.DeleteUser, repository.Delete, failingStore]
    · simp only [handler.ListUsers, service.ListUsers, repository.List, failingStore]

/-- C9 as stated fails: a request whose parameter `limit` is written with an empty value
(GET /users?limit=) carries a limit that is no integer, yet it is answered 200 and the
list query runs with the default limit 50; likewise for an empty `offset`. -/
theorem empty_limit_gets_default :
    writtenInt "" = none
    ∧ handler.ListUsers (storeOf threeUsers) ⟨2025, 12, 31⟩ (some "") none
        = handler.ListUsers (storeOf threeUsers) ⟨2025, 12, 31⟩ none none
    ∧ (handler.ListUsers (storeOf threeUsers) ⟨2025, 12, 31⟩ (some "") none).1.status = 200
    ∧ (handler.ListUsers (storeOf threeUsers) ⟨2025, 12, 31⟩ (some "") none).2
        = [Call.ListUsers 50 0]
    ∧ (handler.ListUsers (storeOf threeUsers) ⟨2025, 12, 31⟩ none (some "")).2
        = [Call.ListUsers 50 0] := by
  decide

/-- C9 (amended): GET /users reads `limit` as "50" and `offset` as "0" when the parameter is
absent or written with an empty value, and as the text of the parameter otherwise. Either
both texts are integers written in decimal, the limit in 1 .. 2^31-1 and the offset in
0 .. 2^31-1, and the list query runs once with exactly these two integers; or one of them
is not, the answer is 400 and no query runs. -/
theorem ListUsers_query_checks (q : Queries) (now : Date) (limitArg offsetArg : Option String) :
    (∀ d : String, handler.Query none d = d ∧ handler.Query (some "") d = d
        ∧ ∀ s : String, s ≠ "" → handler.Query (some s) d = s)
    ∧ ((∃ l o : Int, writtenInt (handler.Query limitArg "50") = some l
            ∧ writtenInt (handler.Query offsetArg "0") = some o
            ∧ 0 < l ∧ l < 2 ^ 31 ∧ 0 ≤ o ∧ o < 2 ^ 31
            ∧ (handler.ListUsers q now limitArg offsetArg).2 = [Call.ListUsers l o])
        ∨ ((¬ (∃ l : Int, writtenInt (handler.Query limitArg "50") = some l ∧ 0 < l ∧ l < 2 ^ 31)
              ∨ ¬ (∃ o : Int, writtenInt (handler.Query offsetArg "0") = some o
                    ∧ 0 ≤ o ∧ o < 2 ^ 31))
            ∧ (handler.ListUsers q now limitArg offsetArg).1.status = 400
            ∧ (handler.ListUsers q now limitArg offsetArg).2 = [])) := by
  constructor
  · intro d
    refine ⟨by simp [handler.Query], by simp [handler.Query], ?_⟩
    intro s hs
    simp [handler.Query, hs]
  · have hiff := fun (s : String) (v : Int) => ParseInt_eq_some_iff s 32 (by norm_num) v
    simp only [Nat.add_one_sub_one, Nat.reduceSub] at hiff
    cases hl : ParseInt (handler.Query limitArg "50") 32 with
    | none =>
      right
      refine ⟨Or.inl ?_, ?_, ?_⟩
      · rintro ⟨l, hw, h1, h2⟩
        have := (hiff _ l).2 ⟨hw, by omega, by omega⟩
        rw [hl] at this
        cases this
      · simp [handler.ListUsers, hl]
      · simp [handler.ListUsers, hl]
    | some l =>
      obtain ⟨hwl, hl1, hl2⟩ := (hiff _ l).1 hl
      by_cases hlpos : l ≤ 0
      · right
        refine ⟨Or.inl ?_, ?_, ?_⟩
        · rintro ⟨l', hw, h1, h2⟩
          rw [hwl] at hw
          cases hw
          omega
        · simp [handler.ListUsers, hl, hlpos]
        · simp [handler.ListUsers, hl, hlpos]
      · cases ho : ParseInt (handler.Query offsetArg "0") 32 with
        | none =>
          right
          refine ⟨Or.inr ?_, ?_, ?_⟩
          · rintro ⟨o, hw, h1, h2⟩
            have := (hiff _ o).2 ⟨hw, by omega, by omega⟩
            rw [ho] at this
            cases this
          · simp [handler.ListUsers, hl, hlpos, ho]
          · simp [handler.ListUsers, hl, hlpos, ho]
        | some o =>
          obtain ⟨hwo, ho1, ho2⟩ := (hiff _ o).1 ho
          by_cases honeg : o < 0
          · right
            refine ⟨Or.inr ?_, ?_, ?_⟩
            · rintro ⟨o', hw, h1, h2⟩
              rw [hwo] at hw
              cases hw
              omega
            · simp [handler.ListUsers, hl, hlpos, ho, honeg]
            · simp [handler.ListUsers, hl, hlpos, ho, honeg]
          · left
            refine ⟨l, o, hwl, hwo, by omega, hl2, by omega, ho2, ?_⟩
            have h := handler_ListUsers_of_parsed q now limitArg offsetArg l o hl ho
              (by omega) (by omega)
            rw [(toInt32_eq_self_iff l).2 ⟨hl1, hl2⟩, (toInt32_eq_self_iff o).2 ⟨ho1, ho2⟩] at h
            exact h

theorem ListUsers_query_checks_witness :
    handler.Query (some "2") "50" = "2"
    ∧ (handler.ListUsers (storeOf threeUsers) ⟨2025, 12, 31⟩ (some "2") none).2
        = [Call.ListUsers 2 0]
    ∧ (handler.ListUsers (storeOf threeUsers) ⟨2025, 12, 31⟩ (some "2147483648") none)
        = ({ status := 400, body := handler.errorBody "invalid limit" }, []) :=
  ⟨((ListUsers_query_checks (storeOf threeUsers) ⟨2025, 12, 31⟩ (some "2") none).1 "50").2.2
    "2" (by decide), by decide, by decide⟩

end UserVault
